import Mathlib

/- Shallow embedding of the analytics core of `src/app.py` (a Streamlit
portfolio-risk app) and proofs about it.

Modelling conventions:
* Python/numpy floating-point numbers are modelled as exact rationals (`ℚ`).
  Division by zero yields `0` in `ℚ` where IEEE floats would yield
  `inf`/`nan`; every theorem below either guards those cases with the same
  guards the source uses or is insensitive to the value produced.
* numpy's floating-point square root (used only to turn a portfolio
  variance into a volatility) is modelled by an abstract function
  `vsqrt : ℚ → ℚ` passed as a parameter: no claim proved here depends on
  any property of the square root.
* The stream of pseudo-random draws of `np.random.random(num_assets)` is
  modelled as an explicit input `draws : List (List ℚ)`, one vector of
  uniform(0,1) values per Monte Carlo trial.
* pandas DataFrames are modelled as a list of column labels plus row-major
  cell lists (`PriceTable` with optional cells for NaN, `RTable` with total
  cells after `dropna`).
-/

namespace App

/-- Arithmetic mean of a list of rationals (`Series.mean`); `0` on the
empty list, which the code never relies on (all uses are guarded). -/
def mean (xs : List ℚ) : ℚ := xs.sum / xs.length

/-- Sample covariance with the (n-1) denominator (`Series.cov`), over two
already-aligned equal-length series, as produced by the dropna-aligned
return table in `app.py`. -/
def sampleCov (xs ys : List ℚ) : ℚ :=
  (List.zipWith (fun a b => (a - mean xs) * (b - mean ys)) xs ys).sum / ((xs.length : ℚ) - 1)

/-- Sample variance with the (n-1) denominator (`Series.var`); in exact
arithmetic this is the covariance of a series with itself. -/
def sampleVar (xs : List ℚ) : ℚ := sampleCov xs xs

/-- Embedding of `calculate_beta` (`src/app.py` lines 20-25): guard on fewer than 2
observations, guard on exactly-zero market variance, otherwise sample
covariance over sample variance. -/
def calculate_beta (stock_returns market_returns : List ℚ) : ℚ :=
  if stock_returns.length < 2 then 0
  else
    let covariance := sampleCov stock_returns market_returns
    let variance := sampleVar market_returns
    if variance = 0 then 0 else covariance / variance

/-- Embedding of `np.argmax` over a list: index of the first occurrence of the maximum
(numpy returns the first maximal index; `0` on the empty list). -/
def np_argmax : List ℚ → Nat
  | [] => 0
  | [_] => 0
  | x :: y :: tl =>
    let k := np_argmax (y :: tl)
    if x < (y :: tl).getD k 0 then k + 1 else 0

/-- One Monte Carlo trial's record: the normalized weight vector plus the
three scores stored into `results[:, i]` in `app.py` lines 84-99. -/
structure Sample where
  weights : List ℚ
  portfolio_return : ℚ
  portfolio_std_dev : ℚ
  sharpe : ℚ
deriving DecidableEq

/-- Embedding of `weights /= np.sum(weights)` (line 87). -/
def normalizeWeights (u : List ℚ) : List ℚ := u.map (fun x => x / u.sum)

/-- numpy dot product of two equal-length vectors. -/
def dotProduct (xs ys : List ℚ) : ℚ := (List.zipWith (fun a b => a * b) xs ys).sum

/-- Matrix-vector product `np.dot(m, v)` (row-major matrix). -/
def matVec (m : List (List ℚ)) (v : List ℚ) : List ℚ :=
  m.map (fun row => dotProduct row v)

/-- The quadratic form `np.dot(weights.T, np.dot(cov_matrix, weights))`
(line 94). -/
def quadForm (cov : List (List ℚ)) (w : List ℚ) : ℚ := dotProduct w (matVec cov w)

/-- One iteration of the simulation loop (lines 84-99): draw `u`, normalize
to weights, score return, volatility (via the abstract square root) and
Sharpe ratio with a zero risk-free rate. -/
def mkSample (vsqrt : ℚ → ℚ) (mean_rets : List ℚ) (cov : List (List ℚ))
    (u : List ℚ) : Sample :=
  let weights := normalizeWeights u
  let portfolio_return := dotProduct mean_rets weights
  let portfolio_std_dev := vsqrt (quadForm cov weights)
  { weights := weights
    portfolio_return := portfolio_return
    portfolio_std_dev := portfolio_std_dev
    sharpe := portfolio_return / portfolio_std_dev }

/-- Result of the Monte Carlo loop plus the selection step
`max_sharpe_idx = np.argmax(results[2])` (line 102). -/
structure SimOutput where
  samples : List Sample
  max_sharpe_idx : Nat
deriving DecidableEq

/-- The whole simulation run over an explicit stream of random draws, one
vector of uniform(0,1) values per trial (`num_portfolios = draws.length`). -/
def monteCarlo (vsqrt : ℚ → ℚ) (mean_rets : List ℚ) (cov : List (List ℚ))
    (draws : List (List ℚ)) : SimOutput :=
  let samples := draws.map (mkSample vsqrt mean_rets cov)
  ⟨samples, np_argmax (samples.map (fun s => s.sharpe))⟩

/-- A pandas DataFrame of closing prices as fetched on line 50: column
labels plus row-major cells, `none` modelling NaN (a missing observation). -/
structure PriceTable where
  cols : List String
  rows : List (List (Option ℚ))
deriving DecidableEq

/-- One cell of `DataFrame.pct_change`: the fractional change, defined only
when the current and previous cells are both present. -/
def pctCell (prev cur : Option ℚ) : Option ℚ :=
  match prev, cur with
  | some p, some c => some (c / p - 1)
  | _, _ => none

/-- One row of `DataFrame.pct_change` against the previous raw row. -/
def pctRow (prev cur : List (Option ℚ)) : List (Option ℚ) :=
  List.zipWith pctCell prev cur

/-- Rows 1 onward of `DataFrame.pct_change`. -/
def pctRowsFrom (prev : List (Option ℚ)) :
    List (List (Option ℚ)) → List (List (Option ℚ))
  | [] => []
  | c :: cs => pctRow prev c :: pctRowsFrom c cs

/-- Embedding of `DataFrame.pct_change` (line 51): the first row becomes all-NaN, every
later row is the elementwise fractional change per column. -/
def pct_change : List (List (Option ℚ)) → List (List (Option ℚ))
  | [] => []
  | r :: rs => r.map (fun _ => none) :: pctRowsFrom r rs

/-- Embedding of `DataFrame.dropna` (line 51): keep only the rows in which every column
has a value. -/
def dropna (rows : List (List (Option ℚ))) : List (List ℚ) :=
  (rows.filter (fun r => r.all Option.isSome)).map (fun r => r.filterMap id)

/-- The aligned return table `returns` (line 51): same column labels as the
price table, rows with any missing value dropped. -/
structure RTable where
  cols : List String
  rows : List (List ℚ)
deriving DecidableEq

/-- Embedding of `returns = data.pct_change().dropna()` (line 51). -/
def buildReturns (p : PriceTable) : RTable :=
  ⟨p.cols, dropna (pct_change p.rows)⟩

/-- Position of a column label in the label list (first match; labels are
unique in the fetched table). -/
def colIndex (cols : List String) (name : String) : Nat :=
  match cols with
  | [] => 0
  | c :: cs => if c = name then 0 else colIndex cs name + 1

/-- One column of the return table, as a series (`returns[name]`). -/
def colOf (t : RTable) (name : String) : List ℚ :=
  t.rows.map (fun r => r.getD (colIndex t.cols name) 0)

/-- Column selection `t[names]` (lines 68 and 151): the listed columns in
the listed order, duplicates permitted. -/
def selectCols (t : RTable) (names : List String) : RTable :=
  ⟨names, t.rows.map (fun r => names.map (fun n => r.getD (colIndex t.cols n) 0))⟩

/-- The table in column-major order, one series per column label. -/
def columnData (t : RTable) : List (List ℚ) := t.cols.map (colOf t)

/-- Embedding of `mean_returns = sim_returns.mean() * 252` (line 74). -/
def mean_returns (t : RTable) : List ℚ := (columnData t).map (fun c => mean c * 252)

/-- Embedding of `cov_matrix = sim_returns.cov() * 252` (line 75), the pairwise sample
covariance matrix scaled by the annualization factor. -/
def cov_matrix (t : RTable) : List (List ℚ) :=
  (columnData t).map (fun ci => (columnData t).map (fun cj => sampleCov ci cj * 252))

/-- Python `str.split()` over the characters of a string: split at runs of
whitespace, never producing an empty token; `acc` holds the characters of
the token currently being read, in reverse. -/
def splitWsAux : List Char → List Char → List (List Char)
  | [], acc => if acc = [] then [] else [acc.reverse]
  | c :: cs, acc =>
    if c.isWhitespace then
      if acc = [] then splitWsAux cs [] else acc.reverse :: splitWsAux cs []
    else splitWsAux cs (c :: acc)

/-- Python `str.split()` with no separator argument. -/
def pySplit (s : String) : List String := (splitWsAux s.data []).map String.mk

/-- Python `str.upper()` (ASCII tickers only are at stake). -/
def pyUpper (s : String) : String := String.mk (s.data.map Char.toUpper)

/-- Embedding of `user_tickers = [t.upper() for t in tickers_input.split()]` (line 41):
whitespace-split tokens, uppercased, duplicates retained. -/
def user_tickers (tickers_input : String) : List String :=
  (pySplit tickers_input).map pyUpper

/-- First-occurrence deduplication, recorded against an accumulator of
labels already seen. -/
def firstDedupAux : List String → List String → List String
  | [], _ => []
  | x :: xs, seen =>
    if x ∈ seen then firstDedupAux xs seen else x :: firstDedupAux xs (x :: seen)

/-- First-occurrence deduplication of a label list. -/
def firstDedup (l : List String) : List String := firstDedupAux l []

/-- Embedding of `fetch_tickers = list(set(user_tickers + ["SPY"]))` (line 44). Python's
set iteration order is unspecified; first-occurrence order is chosen here
and only membership in the result is relied on downstream. -/
def fetch_tickers (uts : List String) : List String := firstDedup (uts ++ ["SPY"])

/-- Pearson correlation of two aligned series, with the two standard
deviations taken through the abstract square root. -/
def pearson (vsqrt : ℚ → ℚ) (xs ys : List ℚ) : ℚ :=
  sampleCov xs ys / (vsqrt (sampleVar xs) * vsqrt (sampleVar ys))

/-- A labelled correlation matrix. -/
structure CorrMatrix where
  index : List String
  entries : List (List ℚ)
deriving DecidableEq

/-- Embedding of `corr_matrix = portfolio_returns.corr()` (line 152): pairwise Pearson
correlation over the table's columns, labelled by those columns. -/
def corr_matrix (vsqrt : ℚ → ℚ) (t : RTable) : CorrMatrix :=
  ⟨t.cols, t.cols.map (fun i => t.cols.map (fun j => pearson vsqrt (colOf t i) (colOf t j)))⟩

/-- Embedding of `beta_dict` (lines 135-138): one beta per requested ticker that is
present in the return table, against the SPY column; a Python dict keeps
the first occurrence of each key, hence the first-occurrence dedup. -/
def beta_dict (uts : List String) (returns : RTable) : List (String × ℚ) :=
  (firstDedup (uts.filter (fun t => t ∈ returns.cols))).map
    (fun t => (t, calculate_beta (colOf returns t) (colOf returns "SPY")))

/-- Tab 2 (lines 131-144): the beta analysis runs only when the benchmark
column is present in the return table; otherwise it is skipped with a
warning and produces nothing. -/
def betaAnalysis (uts : List String) (returns : RTable) : Option (List (String × ℚ)) :=
  if "SPY" ∈ returns.cols then some (beta_dict uts returns) else none

/-- The spec's name for the warning-and-skip branch of lines 70-71. -/
inductive SimError
  | invalidUniverse
deriving DecidableEq

/-- Tab 1 (lines 63-104): guard on fewer than 2 user tickers, otherwise
run the Monte Carlo simulation over the user columns only. -/
def runSimulation (vsqrt : ℚ → ℚ) (uts : List String) (returns : RTable)
    (draws : List (List ℚ)) : Except SimError SimOutput :=
  if uts.length < 2 then .error .invalidUniverse
  else
    let sim_returns := selectCols returns uts
    .ok (monteCarlo vsqrt (mean_returns sim_returns) (cov_matrix sim_returns) draws)

/-- The spec's name for the stop on line 53-55. -/
inductive AnalysisError
  | insufficientData
deriving DecidableEq

/-- The three analysis products of one run (tabs 1, 2 and 3). -/
structure AnalysisOutput where
  simulation : Except SimError SimOutput
  betas : Option (List (String × ℚ))
  corr : CorrMatrix

/-- The main analysis (lines 50-155): build the aligned return table, stop
with the insufficient-data error when it has no rows, otherwise produce the
simulation, beta and correlation results. -/
def analyze (vsqrt : ℚ → ℚ) (uts : List String) (data : PriceTable)
    (draws : List (List ℚ)) : Except AnalysisError AnalysisOutput :=
  let returns := buildReturns data
  if returns.rows = [] then .error .insufficientData
  else .ok
    { simulation := runSimulation vsqrt uts returns draws
      betas := betaAnalysis uts returns
      corr := corr_matrix vsqrt (selectCols returns uts) }

/-- Modelled from the spec: the variant of the app in `src/` only draws the
correlation heat map; the average pairwise correlation of the spec (present
in another variant of this repository, absent from `src/app.py`) sums all
matrix entries, subtracts the N diagonal ones and divides by the
off-diagonal cell count N*(N-1), with 1 as the degenerate value for N ≤ 1. -/
def avg_correlation (m : CorrMatrix) : ℚ :=
  if m.index.length ≤ 1 then 1
  else ((m.entries.map (fun row => row.sum)).sum - m.index.length) /
    ((m.index.length : ℚ) * ((m.index.length : ℚ) - 1))

/-- The three-tier diversification health label of the spec. -/
inductive RiskLevel
  | highRisk
  | moderateRisk
  | healthy
deriving DecidableEq

/-- Modelled from the spec: the risk classification of the average pairwise
correlation with fixed thresholds 0.6 and 0.3, absent from `src/app.py`. -/
def classify_risk (avg : ℚ) : RiskLevel :=
  if 3/5 < avg then .highRisk
  else if 3/10 < avg then .moderateRisk
  else .healthy

/-- C3: `calculate_beta` returns 0 on fewer than 2 aligned observations,
returns 0 on exactly-zero market variance, and otherwise returns the
(n-1)-denominator sample covariance divided by the (n-1)-denominator
sample variance over the same aligned observation set, unrounded; with
at least 2 observations the (n-1) factors cancel, so the result is also
the ratio of the demeaned product sum to the demeaned square sum. -/
theorem calculate_beta_cases (stock_returns market_returns : List ℚ)
    (h : stock_returns.length = market_returns.length) :
    (stock_returns.length < 2 → calculate_beta stock_returns market_returns = 0) ∧
    (2 ≤ stock_returns.length → sampleVar market_returns = 0 →
      calculate_beta stock_returns market_returns = 0) ∧
    (2 ≤ stock_returns.length → sampleVar market_returns ≠ 0 →
      calculate_beta stock_returns market_returns =
        sampleCov stock_returns market_returns / sampleVar market_returns ∧
      calculate_beta stock_returns market_returns =
        (List.zipWith
            (fun a b => (a - mean stock_returns) * (b - mean market_returns))
            stock_returns market_returns).sum /
          (market_returns.map
            (fun b => (b - mean market_returns) * (b - mean market_returns))).sum) := by
  refine ⟨fun hlt => by simp [calculate_beta, hlt], fun hge hv => ?_, fun hge hv => ?_⟩
  · simp [calculate_beta, Nat.not_lt.mpr hge, hv]
  · have hnlt : ¬ stock_returns.length < 2 := Nat.not_lt.mpr hge
    have hbeta : calculate_beta stock_returns market_returns =
        sampleCov stock_returns market_returns / sampleVar market_returns := by
      simp [calculate_beta, hnlt, hv]
    refine ⟨hbeta, ?_⟩
    have hge' : 2 ≤ market_returns.length := h ▸ hge
    have hm : ((market_returns.length : ℚ) - 1) ≠ 0 := by
      have h2 : (2 : ℚ) ≤ (market_returns.length : ℚ) := by exact_mod_cast hge'
      intro hzero
      nlinarith
    have hsq : (market_returns.map
          (fun b => (b - mean market_returns) * (b - mean market_returns))).sum =
        (List.zipWith
          (fun a b => (a - mean market_returns) * (b - mean market_returns))
          market_returns market_returns).sum := by
      rw [List.zipWith_same]
    rw [hbeta]
    simp only [sampleVar, sampleCov, h]
    rw [hsq, div_div_div_cancel_right₀ hm]

/-- Witness for C3 at a concrete input: two aligned series of length 3. -/
theorem calculate_beta_cases_witness :
    ([1, 2, 4] : List ℚ).length = ([1, 3, 5] : List ℚ).length ∧
    (2 ≤ ([1, 2, 4] : List ℚ).length → sampleVar [(1 : ℚ), 3, 5] ≠ 0 →
      calculate_beta [1, 2, 4] [1, 3, 5] =
        sampleCov [1, 2, 4] [1, 3, 5] / sampleVar [(1 : ℚ), 3, 5] ∧
      calculate_beta [1, 2, 4] [1, 3, 5] =
        (List.zipWith
            (fun a b => (a - mean [1, 2, 4]) * (b - mean [1, 3, 5]))
            [(1 : ℚ), 2, 4] [(1 : ℚ), 3, 5]).sum /
          (([1, 3, 5] : List ℚ).map
            (fun b => (b - mean [1, 3, 5]) * (b - mean [1, 3, 5]))).sum) :=
  ⟨by decide, (calculate_beta_cases [1, 2, 4] [1, 3, 5] (by decide)).2.2⟩

/-- C8 counterexample: a constant return series of length 2 has beta 0
against itself, not 1 (the zero-variance guard fires). -/
theorem beta_self_cex :
    calculate_beta [(1 : ℚ), 1] [(1 : ℚ), 1] = 0 ∧
    calculate_beta [(1 : ℚ), 1] [(1 : ℚ), 1] ≠ 1 := by
  constructor <;> norm_num [calculate_beta, sampleVar, sampleCov, mean]

/-- C8 (amended): for every return series with at least 2 observations and
nonzero sample variance, the beta of the series against itself is exactly 1. -/
theorem beta_self_eq_one (xs : List ℚ) (h2 : 2 ≤ xs.length)
    (hv : sampleVar xs ≠ 0) : calculate_beta xs xs = 1 := by
  have hnlt : ¬ xs.length < 2 := Nat.not_lt.mpr h2
  simp only [calculate_beta, hnlt, if_false, if_neg hv]
  exact div_self hv

/-- Witness for the amended C8 at the concrete series `[0, 1]`. -/
theorem beta_self_eq_one_witness :
    2 ≤ ([(0 : ℚ), 1] : List ℚ).length ∧ sampleVar [(0 : ℚ), 1] ≠ 0 ∧
      calculate_beta [(0 : ℚ), 1] [(0 : ℚ), 1] = 1 :=
  ⟨by decide, by norm_num [sampleVar, sampleCov, mean],
    beta_self_eq_one [0, 1] (by decide)
      (by norm_num [sampleVar, sampleCov, mean])⟩

theorem np_argmax_lt_length : ∀ (l : List ℚ), l ≠ [] → np_argmax l < l.length := by
  intro l
  induction l with
  | nil => simp
  | cons x xs ih =>
    intro _
    cases xs with
    | nil => simp [np_argmax]
    | cons y tl =>
      simp only [np_argmax]
      split
      · exact Nat.succ_lt_succ (ih (by simp))
      · simp

theorem np_argmax_is_max : ∀ (l : List ℚ) (j : Nat), j < l.length →
    l.getD j 0 ≤ l.getD (np_argmax l) 0 := by
  intro l
  induction l with
  | nil => intro j hj; simp at hj
  | cons x xs ih =>
    intro j hj
    cases xs with
    | nil =>
      have hj0 : j = 0 := by simp at hj; omega
      subst hj0
      simp [np_argmax]
    | cons y tl =>
      simp only [np_argmax]
      split
      · rename_i hlt
        cases j with
        | zero => simpa using le_of_lt hlt
        | succ j' =>
          simpa using ih j' (by simpa using Nat.lt_of_succ_lt_succ hj)
      · rename_i hnlt
        cases j with
        | zero => simp
        | succ j' =>
          have h1 : (y :: tl).getD j' 0 ≤ (y :: tl).getD (np_argmax (y :: tl)) 0 :=
            ih j' (by simpa using Nat.lt_of_succ_lt_succ hj)
          have h2 : (y :: tl).getD (np_argmax (y :: tl)) 0 ≤ x := le_of_not_lt hnlt
          simpa using le_trans h1 h2

theorem np_argmax_first : ∀ (l : List ℚ) (j : Nat), j < np_argmax l →
    l.getD j 0 < l.getD (np_argmax l) 0 := by
  intro l
  induction l with
  | nil => intro j hj; simp [np_argmax] at hj
  | cons x xs ih =>
    intro j hj
    cases xs with
    | nil => simp [np_argmax] at hj
    | cons y tl =>
      simp only [np_argmax] at hj ⊢
      split at hj
      · rename_i hlt
        simp only [if_pos hlt]
        cases j with
        | zero => simpa using hlt
        | succ j' => simpa using ih j' (Nat.lt_of_succ_lt_succ hj)
      · omega

/-- C1: in every run with at least one trial the selected index is in
range, the selected sample's Sharpe ratio is greater than or equal to every
sample's Sharpe ratio, and every strictly earlier sample has a strictly
smaller Sharpe ratio (so a tie for the maximum is resolved to the first
sample in generation order). -/
theorem best_sample_argmax (vsqrt : ℚ → ℚ) (mean_rets : List ℚ)
    (cov : List (List ℚ)) (draws : List (List ℚ)) (h : draws ≠ []) :
    (monteCarlo vsqrt mean_rets cov draws).max_sharpe_idx <
      (monteCarlo vsqrt mean_rets cov draws).samples.length ∧
    (∀ j, j < (monteCarlo vsqrt mean_rets cov draws).samples.length →
      ((monteCarlo vsqrt mean_rets cov draws).samples.map (fun s => s.sharpe)).getD j 0 ≤
      ((monteCarlo vsqrt mean_rets cov draws).samples.map (fun s => s.sharpe)).getD
        (monteCarlo vsqrt mean_rets cov draws).max_sharpe_idx 0) ∧
    (∀ j, j < (monteCarlo vsqrt mean_rets cov draws).max_sharpe_idx →
      ((monteCarlo vsqrt mean_rets cov draws).samples.map (fun s => s.sharpe)).getD j 0 <
      ((monteCarlo vsqrt mean_rets cov draws).samples.map (fun s => s.sharpe)).getD
        (monteCarlo vsqrt mean_rets cov draws).max_sharpe_idx 0) := by
  have hlen : (monteCarlo vsqrt mean_rets cov draws).samples.length = draws.length := by
    simp [monteCarlo]
  have hmaplen :
      ((monteCarlo vsqrt mean_rets cov draws).samples.map (fun s => s.sharpe)).length =
        draws.length := by
    simp [monteCarlo]
  have hne : (monteCarlo vsqrt mean_rets cov draws).samples.map (fun s => s.sharpe) ≠ [] := by
    intro hnil
    apply h
    rw [← List.length_eq_zero]
    rw [← hmaplen, hnil]
    rfl
  refine ⟨?_, ?_, ?_⟩
  · have := np_argmax_lt_length _ hne
    rw [hmaplen] at this
    rw [hlen]
    simpa [monteCarlo] using this
  · intro j hj
    rw [hlen, ← hmaplen] at hj
    exact np_argmax_is_max _ j hj
  · intro j hj
    exact np_argmax_first _ j hj

/-- Witness for C1: a run of two trials over two assets; the abstract
square root is instantiated with the identity function. -/
theorem best_sample_argmax_witness :
    ([[(1 : ℚ), 1], [3, 1]] : List (List ℚ)) ≠ [] ∧
    ((monteCarlo id [1, 2] [[1, 0], [0, 1]] [[(1 : ℚ), 1], [3, 1]]).max_sharpe_idx <
      (monteCarlo id [1, 2] [[1, 0], [0, 1]] [[(1 : ℚ), 1], [3, 1]]).samples.length ∧
    (∀ j, j < (monteCarlo id [1, 2] [[1, 0], [0, 1]] [[(1 : ℚ), 1], [3, 1]]).samples.length →
      ((monteCarlo id [1, 2] [[1, 0], [0, 1]] [[(1 : ℚ), 1], [3, 1]]).samples.map
        (fun s => s.sharpe)).getD j 0 ≤
      ((monteCarlo id [1, 2] [[1, 0], [0, 1]] [[(1 : ℚ), 1], [3, 1]]).samples.map
        (fun s => s.sharpe)).getD
        (monteCarlo id [1, 2] [[1, 0], [0, 1]] [[(1 : ℚ), 1], [3, 1]]).max_sharpe_idx 0) ∧
    (∀ j, j < (monteCarlo id [1, 2] [[1, 0], [0, 1]] [[(1 : ℚ), 1], [3, 1]]).max_sharpe_idx →
      ((monteCarlo id [1, 2] [[1, 0], [0, 1]] [[(1 : ℚ), 1], [3, 1]]).samples.map
        (fun s => s.sharpe)).getD j 0 <
      ((monteCarlo id [1, 2] [[1, 0], [0, 1]] [[(1 : ℚ), 1], [3, 1]]).samples.map
        (fun s => s.sharpe)).getD
        (monteCarlo id [1, 2] [[1, 0], [0, 1]] [[(1 : ℚ), 1], [3, 1]]).max_sharpe_idx 0)) :=
  ⟨by simp, best_sample_argmax id [1, 2] [[1, 0], [0, 1]] [[(1 : ℚ), 1], [3, 1]] (by simp)⟩

/-- C2: every weight vector produced in a run from positive uniform(0,1)
draws has all entries nonnegative and sums exactly to 1. -/
theorem weights_on_simplex (vsqrt : ℚ → ℚ) (mean_rets : List ℚ)
    (cov : List (List ℚ)) (draws : List (List ℚ))
    (h : ∀ u ∈ draws, u ≠ [] ∧ ∀ x ∈ u, 0 < x ∧ x < 1) :
    ∀ s ∈ (monteCarlo vsqrt mean_rets cov draws).samples,
      (∀ w ∈ s.weights, 0 ≤ w) ∧ s.weights.sum = 1 := by
  intro s hs
  simp only [monteCarlo, List.mem_map] at hs
  obtain ⟨u, hu, rfl⟩ := hs
  obtain ⟨hne, hpos⟩ := h u hu
  have hsum : 0 < u.sum := List.sum_pos u (fun x hx => (hpos x hx).1) hne
  constructor
  · intro w hw
    simp only [mkSample, normalizeWeights, List.mem_map] at hw
    obtain ⟨x, hx, rfl⟩ := hw
    exact div_nonneg (le_of_lt (hpos x hx).1) (le_of_lt hsum)
  · show (normalizeWeights u).sum = 1
    unfold normalizeWeights
    have : (u.map (fun x => x / u.sum)).sum = u.sum / u.sum := by
      simp only [div_eq_mul_inv]
      simpa using List.sum_map_mul_right u (fun x => x) u.sum⁻¹
    rw [this]
    exact div_self (ne_of_gt hsum)

/-- Witness for C2: one trial with two draws strictly inside (0,1). -/
theorem weights_on_simplex_witness :
    (∀ u ∈ ([[(1 : ℚ)/2, 1/4]] : List (List ℚ)), u ≠ [] ∧ ∀ x ∈ u, 0 < x ∧ x < 1) ∧
    (∀ s ∈ (monteCarlo id [1, 2] [[1, 0], [0, 1]] [[(1 : ℚ)/2, 1/4]]).samples,
      (∀ w ∈ s.weights, 0 ≤ w) ∧ s.weights.sum = 1) :=
  ⟨by
    intro u hu
    simp only [List.mem_cons, List.not_mem_nil, or_false] at hu
    subst hu
    exact ⟨by simp, by norm_num⟩,
   weights_on_simplex id [1, 2] [[1, 0], [0, 1]] [[(1 : ℚ)/2, 1/4]]
    (by
      intro u hu
      simp only [List.mem_cons, List.not_mem_nil, or_false] at hu
      subst hu
      exact ⟨by simp, by norm_num⟩)⟩

theorem mem_firstDedupAux (a : String) :
    ∀ (l seen : List String), a ∈ firstDedupAux l seen ↔ a ∈ l ∧ a ∉ seen := by
  intro l
  induction l with
  | nil => intro seen; simp [firstDedupAux]
  | cons x xs ih =>
    intro seen
    simp only [firstDedupAux]
    split
    · rename_i hx
      rw [ih]
      constructor
      · rintro ⟨h1, h2⟩
        exact ⟨List.mem_cons_of_mem x h1, h2⟩
      · rintro ⟨h1, h2⟩
        rcases List.mem_cons.mp h1 with heq | hmem
        · subst heq; exact absurd hx h2
        · exact ⟨hmem, h2⟩
    · rename_i hx
      constructor
      · intro hmem
        rcases List.mem_cons.mp hmem with heq | hmem2
        · subst heq; exact ⟨List.mem_cons_self a xs, hx⟩
        · obtain ⟨h1, h2⟩ := (ih (x :: seen)).mp hmem2
          exact ⟨List.mem_cons_of_mem x h1, fun hc => h2 (List.mem_cons_of_mem x hc)⟩
      · rintro ⟨h1, h2⟩
        by_cases hax : a = x
        · subst hax; exact List.mem_cons_self a _
        · rcases List.mem_cons.mp h1 with heq | hmem
          · exact absurd heq hax
          · refine List.mem_cons_of_mem x ((ih (x :: seen)).mpr ⟨hmem, ?_⟩)
            intro hc
            rcases List.mem_cons.mp hc with heq | hc2
            · exact hax heq
            · exact h2 hc2

theorem mem_firstDedup (a : String) (l : List String) :
    a ∈ firstDedup l ↔ a ∈ l := by
  simp [firstDedup, mem_firstDedupAux]

/-- C5: invoking the simulator on fewer than 2 user tickers signals the
invalid-universe error and performs no simulation; on at least 2 it never
signals that error and runs the Monte Carlo over the user columns. -/
theorem invalid_universe_guard (vsqrt : ℚ → ℚ) (uts : List String)
    (returns : RTable) (draws : List (List ℚ)) :
    (uts.length < 2 →
      runSimulation vsqrt uts returns draws = .error .invalidUniverse) ∧
    (2 ≤ uts.length →
      runSimulation vsqrt uts returns draws =
        .ok (monteCarlo vsqrt (mean_returns (selectCols returns uts))
          (cov_matrix (selectCols returns uts)) draws)) := by
  constructor
  · intro hlt
    simp only [runSimulation]
    rw [if_pos hlt]
  · intro hge
    simp only [runSimulation]
    rw [if_neg (Nat.not_lt.mpr hge)]

/-- Witness for C5: one ticker errors out, two tickers simulate. -/
theorem invalid_universe_guard_witness :
    (["NVDA"] : List String).length < 2 ∧
    runSimulation id ["NVDA"] ⟨["NVDA", "SPY"], []⟩ [] = .error .invalidUniverse ∧
    2 ≤ (["NVDA", "TSLA"] : List String).length ∧
    runSimulation id ["NVDA", "TSLA"] ⟨["NVDA", "SPY"], []⟩ [] =
      .ok (monteCarlo id
        (mean_returns (selectCols ⟨["NVDA", "SPY"], []⟩ ["NVDA", "TSLA"]))
        (cov_matrix (selectCols ⟨["NVDA", "SPY"], []⟩ ["NVDA", "TSLA"])) []) :=
  ⟨by decide,
   (invalid_universe_guard id ["NVDA"] ⟨["NVDA", "SPY"], []⟩ []).1 (by decide),
   by decide,
   (invalid_universe_guard id ["NVDA", "TSLA"] ⟨["NVDA", "SPY"], []⟩ []).2 (by decide)⟩

/-- C6: when the aligned return table has zero rows, the analysis stops
with the insufficient-data error and produces none of the three analyses. -/
theorem insufficient_data_stops (vsqrt : ℚ → ℚ) (uts : List String)
    (data : PriceTable) (draws : List (List ℚ))
    (h : (buildReturns data).rows = []) :
    analyze vsqrt uts data draws = .error .insufficientData := by
  simp only [analyze]
  rw [if_pos h]

/-- Witness for C6: a single price row leaves no return rows after the
shift-and-drop, so the analysis stops. -/
theorem insufficient_data_stops_witness :
    (buildReturns ⟨["NVDA", "SPY"], [[some 1, some 1]]⟩).rows = [] ∧
    analyze id ["NVDA"] ⟨["NVDA", "SPY"], [[some 1, some 1]]⟩ [] =
      .error .insufficientData :=
  ⟨by decide,
   insufficient_data_stops id ["NVDA"] ⟨["NVDA", "SPY"], [[some 1, some 1]]⟩ []
     (by decide)⟩

/-- C7: the benchmark is always among the fetched columns of the aligned
table, yet the correlation matrix is indexed exactly by the user's tickers,
so SPY appears in it precisely when the user asked for it. -/
theorem benchmark_excluded_from_corr (vsqrt : ℚ → ℚ) (uts : List String)
    (data : PriceTable) (hcols : data.cols = fetch_tickers uts) :
    "SPY" ∈ (buildReturns data).cols ∧
    (corr_matrix vsqrt (selectCols (buildReturns data) uts)).index = uts ∧
    ("SPY" ∈ (corr_matrix vsqrt (selectCols (buildReturns data) uts)).index ↔
      "SPY" ∈ uts) := by
  have hidx : (corr_matrix vsqrt (selectCols (buildReturns data) uts)).index = uts := rfl
  refine ⟨?_, hidx, by rw [hidx]⟩
  show "SPY" ∈ data.cols
  rw [hcols]
  simp only [fetch_tickers]
  rw [mem_firstDedup]
  simp

/-- Witness for C7: a one-ticker universe whose ticker is not the
benchmark. -/
theorem benchmark_excluded_from_corr_witness :
    (⟨fetch_tickers ["NVDA"], []⟩ : PriceTable).cols = fetch_tickers ["NVDA"] ∧
    ("SPY" ∈ (buildReturns ⟨fetch_tickers ["NVDA"], []⟩).cols ∧
     (corr_matrix id (selectCols (buildReturns ⟨fetch_tickers ["NVDA"], []⟩)
        ["NVDA"])).index = ["NVDA"] ∧
     ("SPY" ∈ (corr_matrix id (selectCols (buildReturns ⟨fetch_tickers ["NVDA"], []⟩)
        ["NVDA"])).index ↔ "SPY" ∈ (["NVDA"] : List String))) :=
  ⟨rfl, benchmark_excluded_from_corr id ["NVDA"] ⟨fetch_tickers ["NVDA"], []⟩ rfl⟩

/-- C9: on a nonempty aligned table the analysis always yields all three
products; the beta product is `none` (skipped, no error) exactly when the
SPY column is absent, it is keyed by the present user tickers in first
occurrence order when SPY is present, and a requested ticker missing from
the table is silently absent from the keys. -/
theorem beta_skip_and_silent_omit (vsqrt : ℚ → ℚ) (uts : List String)
    (data : PriceTable) (draws : List (List ℚ))
    (hne : (buildReturns data).rows ≠ []) :
    analyze vsqrt uts data draws = .ok
      { simulation := runSimulation vsqrt uts (buildReturns data) draws
        betas := betaAnalysis uts (buildReturns data)
        corr := corr_matrix vsqrt (selectCols (buildReturns data) uts) } ∧
    ("SPY" ∉ (buildReturns data).cols → betaAnalysis uts (buildReturns data) = none) ∧
    ("SPY" ∈ (buildReturns data).cols →
      betaAnalysis uts (buildReturns data) = some (beta_dict uts (buildReturns data))) ∧
    (beta_dict uts (buildReturns data)).map Prod.fst =
      firstDedup (uts.filter (fun t => t ∈ (buildReturns data).cols)) ∧
    (∀ t, t ∉ (buildReturns data).cols →
      t ∉ (beta_dict uts (buildReturns data)).map Prod.fst) := by
  have hk : (beta_dict uts (buildReturns data)).map Prod.fst =
      firstDedup (uts.filter (fun t => t ∈ (buildReturns data).cols)) := by
    simp only [beta_dict, List.map_map]
    exact List.map_id _
  refine ⟨?_, ?_, ?_, hk, ?_⟩
  · simp only [analyze]
    rw [if_neg hne]
  · intro h
    simp only [betaAnalysis]
    rw [if_neg h]
  · intro h
    simp only [betaAnalysis]
    rw [if_pos h]
  · intro t ht hc
    rw [hk, mem_firstDedup] at hc
    have hmem := List.mem_filter.mp hc
    simp only [decide_eq_true_eq] at hmem
    exact ht hmem.2

/-- Witness for C9: a table without the SPY column skips the beta analysis. -/
theorem beta_skip_and_silent_omit_witness :
    (buildReturns ⟨["NVDA"], [[some 1], [some 2]]⟩).rows ≠ [] ∧
    ("SPY" ∉ (buildReturns ⟨["NVDA"], [[some 1], [some 2]]⟩).cols →
      betaAnalysis ["NVDA"] (buildReturns ⟨["NVDA"], [[some 1], [some 2]]⟩) = none) :=
  ⟨by decide,
   (beta_skip_and_silent_omit id ["NVDA"] ⟨["NVDA"], [[some 1], [some 2]]⟩ []
     (by decide)).2.1⟩

/-- C10: the universe-size precondition counts raw uppercased tokens with
duplicates retained, so an input tokenizing to the same symbol twice
passes the guard and the simulation runs over that symbol as two duplicate
columns instead of signalling the invalid-universe error. -/
theorem duplicate_ticker_passes (vsqrt : ℚ → ℚ) (s a : String)
    (h : user_tickers s = [a, a]) (returns : RTable) (draws : List (List ℚ)) :
    ¬ (user_tickers s).length < 2 ∧
    (selectCols returns (user_tickers s)).cols = [a, a] ∧
    runSimulation vsqrt (user_tickers s) returns draws =
      .ok (monteCarlo vsqrt (mean_returns (selectCols returns [a, a]))
        (cov_matrix (selectCols returns [a, a])) draws) := by
  rw [h]
  refine ⟨by simp, rfl, ?_⟩
  simp only [runSimulation]
  rw [if_neg (by simp)]

/-- Witness for C10: the input string "nvda NVDA" tokenizes to the ticker
NVDA twice and the simulation runs on the duplicated universe. -/
theorem duplicate_ticker_passes_witness :
    user_tickers "nvda NVDA" = ["NVDA", "NVDA"] ∧
    ¬ (user_tickers "nvda NVDA").length < 2 ∧
    runSimulation id (user_tickers "nvda NVDA") ⟨["NVDA", "SPY"], []⟩ [] =
      .ok (monteCarlo id
        (mean_returns (selectCols ⟨["NVDA", "SPY"], []⟩ ["NVDA", "NVDA"]))
        (cov_matrix (selectCols ⟨["NVDA", "SPY"], []⟩ ["NVDA", "NVDA"])) []) :=
  ⟨by decide,
   (duplicate_ticker_passes id "nvda NVDA" "NVDA" (by decide)
     ⟨["NVDA", "SPY"], []⟩ []).1,
   (duplicate_ticker_passes id "nvda NVDA" "NVDA" (by decide)
     ⟨["NVDA", "SPY"], []⟩ []).2.2⟩

/-- C4: besides the matrix (indexed by exactly the user's tickers) the
correlation analysis yields an average pairwise correlation equal to
(sum of all entries - N) / (N*(N-1)) for N ≥ 2 and to 1 for N ≤ 1, and a
risk label that is a pure function of the average with the fixed
thresholds: above 0.6 high risk, above 0.3 and up to 0.6 moderate, at or
below 0.3 healthy. -/
theorem avg_corr_formula_and_thresholds (vsqrt : ℚ → ℚ) (uts : List String)
    (data : PriceTable) :
    (corr_matrix vsqrt (selectCols (buildReturns data) uts)).index.length =
      uts.length ∧
    avg_correlation (corr_matrix vsqrt (selectCols (buildReturns data) uts)) =
      (if uts.length ≤ 1 then 1
       else (((corr_matrix vsqrt (selectCols (buildReturns data) uts)).entries.map
           (fun row => row.sum)).sum - uts.length) /
         ((uts.length : ℚ) * ((uts.length : ℚ) - 1))) ∧
    (∀ a : ℚ,
      (classify_risk a = RiskLevel.highRisk ↔ 3/5 < a) ∧
      (classify_risk a = RiskLevel.moderateRisk ↔ 3/10 < a ∧ a ≤ 3/5) ∧
      (classify_risk a = RiskLevel.healthy ↔ a ≤ 3/10)) := by
  have hidx : (corr_matrix vsqrt (selectCols (buildReturns data) uts)).index = uts := rfl
  refine ⟨by rw [hidx], by simp only [avg_correlation, hidx], ?_⟩
  intro a
  simp only [classify_risk]
  split_ifs with h1 h2
  · exact ⟨⟨fun _ => h1, fun _ => rfl⟩,
      ⟨fun h => False.elim h, fun hx => absurd h1 (not_lt.mpr hx.2)⟩,
      ⟨fun h => False.elim h,
       fun hx => absurd h1 (not_lt.mpr (le_trans hx (by norm_num)))⟩⟩
  · exact ⟨⟨fun h => False.elim h, fun hx => absurd hx h1⟩,
      ⟨fun _ => ⟨h2, not_lt.mp h1⟩, fun _ => rfl⟩,
      ⟨fun h => False.elim h, fun hx => absurd h2 (not_lt.mpr hx)⟩⟩
  · exact ⟨⟨fun h => False.elim h, fun hx => absurd hx h1⟩,
      ⟨fun h => False.elim h, fun hx => absurd hx.1 h2⟩,
      ⟨fun _ => not_lt.mp h2, fun _ => rfl⟩⟩

end App
